import Mathlib

/-!
Verification development for the atlas-grag repository.

The Python sources under `src/` are shallowly embedded as executable Lean
definitions: pure string manipulation is translated to functions on
`List Char` (an ASCII-level model of Python's unicode-aware `str`
operations), stateful interaction with the external Neo4j / ChromaDB /
Ollama services is modelled by explicit state passing over small state
types that realise the documented contracts of those services, and Python
exceptions are modelled by `Option`/`Except` outcomes threaded into the
translated control flow.
-/

set_option maxRecDepth 4000

/-! ## Entity name normalization (src/ingestion/extractor.py, normalize_entity_name)

Python's `str.strip`, `str.lower` and the regex substitutions are modelled
at the ASCII level: `\s` is the ASCII whitespace class and lowercasing is
basic-latin, matching `Char.toLower`.  Each entry of `COMPANY_SUFFIXES`
is a pattern `\s+word\.?$` (second component `true` when the optional
trailing period is present in the pattern). -/

def isPySpace (c : Char) : Bool :=
  c = ' ' || c = '\t' || c = '\n' || c = '\r' || c = Char.ofNat 11 || c = Char.ofNat 12

def pyStrip (l : List Char) : List Char :=
  ((l.dropWhile isPySpace).reverse.dropWhile isPySpace).reverse

/-- `re.sub(r"\s+", " ", s)`: every maximal whitespace run becomes one space
(a run of two is shortened until a single whitespace character remains, which
is emitted as a space). -/
def collapseWS : List Char → List Char
  | [] => []
  | [c] => if isPySpace c then [' '] else [c]
  | c :: d :: rest =>
    if isPySpace c && isPySpace d then collapseWS (d :: rest)
    else (if isPySpace c then ' ' else c) :: collapseWS (d :: rest)

/-- Case-insensitive match of the reversed suffix word `w` against the front of
the reversed string `r`; returns the remainder on success. -/
def matchWordRev : List Char → List Char → Option (List Char)
  | [], r => some r
  | _ :: _, [] => none
  | w :: ws, c :: cs => if c.toLower = w then matchWordRev ws cs else none

/-- Consume the pattern's optional trailing period (working on the reversed
string, so it is the head). -/
def dropDotRev (allowDot : Bool) (r : List Char) : List Char :=
  match r with
  | c :: t => if allowDot && c = '.' then t else r
  | [] => r

/-- One `re.sub(r"\s+word\.?$", "", s, flags=IGNORECASE)` step: if the string
ends with one or more whitespace characters, the word (case-insensitively) and,
when `allowDot`, an optional period, the whole matched tail is removed. -/
def stripEnd (word : String) (allowDot : Bool) (cs : List Char) : List Char :=
  match matchWordRev word.data.reverse (dropDotRev allowDot cs.reverse) with
  | none => cs
  | some rest =>
    match rest with
    | c :: _ => if isPySpace c then (rest.dropWhile isPySpace).reverse else cs
    | [] => cs

/-- The suffix pattern list of `extractor.py`, in source order; the boolean
records whether the pattern carries the optional `\.?`. -/
def COMPANY_SUFFIXES : List (String × Bool) :=
  [("inc", true), ("incorporated", false), ("corp", true), ("corporation", false),
   ("ltd", true), ("limited", false), ("llc", true), ("co", true),
   ("company", false), ("plc", true), ("gmbh", false), ("ag", false)]

def stripSuffixes (cs : List Char) : List Char :=
  COMPANY_SUFFIXES.foldl (fun acc p => stripEnd p.1 p.2 acc) cs

/-- `normalize_entity_name` from `src/ingestion/extractor.py`: strip, lowercase,
collapse internal whitespace runs, apply each company-suffix pattern once in
order, and strip again. -/
def normalize_entity_name (name : String) : String :=
  if name = "" then ""
  else
    String.mk (pyStrip (stripSuffixes (collapseWS ((pyStrip name.data).map Char.toLower))))

/-! ## Triples and LLM response parsing (src/ingestion/extractor.py) -/

/-- Property maps (Python `Dict[str, Any]`), with values modelled as strings. -/
abbrev Props := List (String × String)

structure Triple where
  subject : String
  subject_type : String
  predicate : String
  object : String
  object_type : String
  properties : Props
deriving DecidableEq, Repr

/-- One element of the decoded `"triples"` JSON array; `none` fields are keys
absent from the JSON object, defaulted by `item.get` in `_parse_response`. -/
structure ParsedItem where
  subject : Option String
  subject_type : Option String
  predicate : Option String
  object : Option String
  object_type : Option String
  properties : Option Props
deriving DecidableEq, Repr

/-- Python `a or b` on strings: `b` when `a` is empty (falsy), else `a`. -/
def pyOr (a b : String) : String := if a = "" then b else a

/-- Python `s.upper().replace(" ", "_")` (basic-latin model). -/
def pyUpperSnake (s : String) : String :=
  String.mk ((s.data.map Char.toUpper).map (fun c => if c = ' ' then '_' else c))

def itemToTriple (it : ParsedItem) : Triple :=
  ⟨it.subject.getD "", it.subject_type.getD "Entity", it.predicate.getD "RELATED_TO",
   it.object.getD "", it.object_type.getD "Entity", it.properties.getD []⟩

/-- The normalization branch of `_parse_response`: normalize subject and object
names, falling back to the raw name when normalization yields the empty string
(Python `normalize_entity_name(x) or x`), and upper-snake-case the predicate. -/
def normalizeTriple (t : Triple) : Triple :=
  ⟨pyOr (normalize_entity_name t.subject) t.subject, t.subject_type,
   pyUpperSnake t.predicate,
   pyOr (normalize_entity_name t.object) t.object, t.object_type, t.properties⟩

/-- The item loop of `EntityExtractor._parse_response`: build each triple with
defaults, optionally normalize, and keep it only when both subject and object
are non-empty (Python truthiness of `triple.subject and triple.object`). -/
def parseItems (normalize : Bool) (items : List ParsedItem) : List Triple :=
  items.foldr (fun it acc =>
    let t0 := itemToTriple it
    let t := if normalize then normalizeTriple t0 else t0
    if t.subject ≠ "" ∧ t.object ≠ "" then t :: acc else acc) []

/-- The regex search `re.search(r"\{[\s\S]*\}", response)` succeeds exactly when
some `{` is followed (strictly later) by some `}`. -/
def hasJsonObject (s : String) : Bool :=
  match s.data.dropWhile (fun c => c ≠ Char.ofNat 123) with
  | [] => false
  | _ :: rest => rest.contains (Char.ofNat 125)

/-- Outcome of handing the brace-matched span to `json.loads` and reading
`data.get("triples", [])` out of it.  The JSON decoder is external to the
translated code, so its verdict is an input of the model: `jsonError` is a
raised `json.JSONDecodeError`, `shapeError` any other exception raised while
walking the decoded data, and `ok` the decoded item list. -/
inductive DecodeOutcome where
  | jsonError (msg : String)
  | shapeError (msg : String)
  | ok (items : List ParsedItem)
deriving Repr

/-- Outcome of `self._llm.invoke(prompt)` plus the decoding of its response:
the generation call either raised, or returned a response string whose
JSON span (if any) decodes as described by the `DecodeOutcome`. -/
inductive LLMEvent where
  | raised (msg : String)
  | returned (response : String) (decoded : DecodeOutcome)
deriving Repr

inductive PyError where
  | valueError (msg : String)
  | jsonDecodeError (msg : String)
  | otherError (msg : String)
deriving Repr

structure ExtractionResult where
  triples : List Triple
  source_text : String
  error : Option String
deriving Repr

/-- `EntityExtractor._parse_response`: raise `ValueError` when the regex finds
no JSON object, propagate the decoder's exceptions, otherwise run the item
loop. -/
def parseResponse (normalize : Bool) (response : String) (decoded : DecodeOutcome) :
    Except PyError (List Triple) :=
  if hasJsonObject response then
    match decoded with
    | DecodeOutcome.jsonError m => Except.error (PyError.jsonDecodeError m)
    | DecodeOutcome.shapeError m => Except.error (PyError.otherError m)
    | DecodeOutcome.ok items => Except.ok (parseItems normalize items)
  else
    Except.error (PyError.valueError ("No JSON object found in response: " ++ response.take 200))

/-- `EntityExtractor.extract`: total in the model — every exception of the body
is caught by one of the three `except` arms and turned into a populated
`error` field on an otherwise empty result. -/
def extract (normalize : Bool) (text : String) (ev : LLMEvent) : ExtractionResult :=
  match ev with
  | LLMEvent.raised m =>
    { triples := [], source_text := text, error := some ("Extraction failed: " ++ m) }
  | LLMEvent.returned response decoded =>
    match parseResponse normalize response decoded with
    | Except.ok ts => { triples := ts, source_text := text, error := none }
    | Except.error (PyError.jsonDecodeError m) =>
      { triples := [], source_text := text,
        error := some ("Failed to parse LLM response as JSON: " ++ m) }
    | Except.error (PyError.valueError m) =>
      { triples := [], source_text := text, error := some m }
    | Except.error (PyError.otherError m) =>
      { triples := [], source_text := text, error := some ("Extraction failed: " ++ m) }

/-! ## Reasoning response parsing (src/llm/chains.py, ReasoningResponse) -/

structure ReasoningResponse where
  answer : String
  entities : String
  reasoning : String
  raw_response : String
deriving DecidableEq, Repr

/-- Split a character list at the first occurrence of `pat`, returning the part
before the match and the part after it. -/
def splitOnFirst (pat : List Char) : List Char → Option (List Char × List Char)
  | [] => if pat = [] then some ([], []) else none
  | c :: rest =>
    if pat.isPrefixOf (c :: rest) then some ([], (c :: rest).drop pat.length)
    else
      match splitOnFirst pat rest with
      | some pq => some (c :: pq.1, pq.2)
      | none => none

/-- `re.search(tagOpen + "(.*?)" + tagClose, s, re.DOTALL)`: the text between
the first opening tag and the first closing tag after it. -/
def extractTag (tagOpen tagClose : String) (s : List Char) : Option (List Char) :=
  match splitOnFirst tagOpen.data s with
  | none => none
  | some pq =>
    match splitOnFirst tagClose.data pq.2 with
    | none => none
    | some mq => some mq.1

/-- Whether `pat` occurs as a substring of `s`. -/
def containsSub (pat s : String) : Bool :=
  (splitOnFirst pat.data s.data).isSome

/-- `ReasoningResponse.parse_from_response`: extract the three delimited
sections independently; with no structured answer, fall back to the text
between the first `</reasoning>` and the next one (Python
`re.split(r"</reasoning>", response)[1]`), and with no `</reasoning>` at all
keep the whole raw response as the answer.  Total — the Python wraps the
section extraction in a bare `try`/`except: pass`. -/
def parse_from_response (response : String) : ReasoningResponse :=
  let cs := response.data
  let entities := match extractTag "<entities>" "</entities>" cs with
    | some m => String.mk (pyStrip m)
    | none => ""
  let reasoning := match extractTag "<reasoning>" "</reasoning>" cs with
    | some m => String.mk (pyStrip m)
    | none => ""
  let answer := match extractTag "<answer>" "</answer>" cs with
    | some m => String.mk (pyStrip m)
    | none =>
      match splitOnFirst ("</reasoning>").data cs with
      | some pq =>
        let seg := match splitOnFirst ("</reasoning>").data pq.2 with
          | some mq => mq.1
          | none => pq.2
        String.mk (pyStrip seg)
      | none => response
  ⟨answer, entities, reasoning, response⟩

/-! ## Graph store model (src/database/graph_db.py)

The Neo4j store is external; its documented `MERGE` contract (create-if-absent
keyed on the pattern's label and match properties, `ON CREATE SET` /
`ON MATCH SET` / `SET` updating non-key attributes — spec §3, §4.3) is realised
on an explicit graph state so that the Cypher text of `merge_node`,
`merge_relationship` and `get_paths_between` can be given a meaning.  Nodes
are identified by `(label, match properties)`, edges by
`(from node, to node, relationship type)`. -/

structure GNode where
  label : String
  matchProps : Props
  attrs : Props
deriving DecidableEq, Repr

structure GEdge where
  fromLabel : String
  fromProps : Props
  toLabel : String
  toProps : Props
  relType : String
  attrs : Props
deriving DecidableEq, Repr

structure Graph where
  nodes : List GNode
  edges : List GEdge
deriving DecidableEq, Repr

/-- Apply a sequence of `SET` updates to a property map (insert or overwrite
by key). -/
def setProps (base updates : Props) : Props :=
  updates.foldl (fun acc kv =>
    if acc.any (fun e => e.1 = kv.1) then
      acc.map (fun e => if e.1 = kv.1 then kv else e)
    else acc ++ [kv]) base

def isNodeKey (label : String) (props : Props) (n : GNode) : Bool :=
  decide (n.label = label ∧ n.matchProps = props)

def isEdgeKey (fl : String) (fp : Props) (tl : String) (tp : Props) (rt : String)
    (e : GEdge) : Bool :=
  decide (e.fromLabel = fl ∧ e.fromProps = fp ∧ e.toLabel = tl ∧ e.toProps = tp ∧ e.relType = rt)

/-- `GraphDatabaseManager.merge_node`: `MERGE (n:label {properties})` with
optional `ON CREATE SET` / `ON MATCH SET` clauses. -/
def merge_node (g : Graph) (label : String) (properties on_create on_match : Props) : Graph :=
  if g.nodes.any (isNodeKey label properties) then
    { nodes := g.nodes.map (fun n =>
        if isNodeKey label properties n then { n with attrs := setProps n.attrs on_match } else n),
      edges := g.edges }
  else
    { nodes := g.nodes ++ [{ label := label, matchProps := properties,
                             attrs := setProps [] on_create }],
      edges := g.edges }

/-- `GraphDatabaseManager.merge_relationship`: `MERGE` both endpoint nodes,
then `MERGE (a)-[r:rel_type]->(b)`, then `SET` the relationship properties. -/
def merge_relationship (g : Graph) (from_label : String) (from_props : Props)
    (to_label : String) (to_props : Props) (rel_type : String) (rel_props : Props) : Graph :=
  let g1 := merge_node g from_label from_props [] []
  let g2 := merge_node g1 to_label to_props [] []
  if g2.edges.any (isEdgeKey from_label from_props to_label to_props rel_type) then
    { nodes := g2.nodes,
      edges := g2.edges.map (fun e =>
        if isEdgeKey from_label from_props to_label to_props rel_type e then
          { e with attrs := setProps e.attrs rel_props }
        else e) }
  else
    { nodes := g2.nodes,
      edges := g2.edges ++ [⟨from_label, from_props, to_label, to_props, rel_type,
                             setProps [] rel_props⟩] }

/-! ## Bounded-hop path queries (src/database/graph_db.py, get_paths_between) -/

/-- One row returned by the path query: the node sequence, the relationship
type sequence, and `length(path)`. -/
structure PathRow where
  nodes : List (String × Props)
  relationships : List String
  path_length : Nat
deriving DecidableEq, Repr

def nodeKeyOf (n : GNode) : String × Props := (n.label, n.matchProps)

/-- Traverse one relationship of the undirected pattern `-[*1..h]-` from the
node `cur`, yielding the opposite endpoint. -/
def edgeStep (cur : String × Props) (e : GEdge) : Option (String × Props) :=
  if (e.fromLabel, e.fromProps) = cur then some (e.toLabel, e.toProps)
  else if (e.toLabel, e.toProps) = cur then some (e.fromLabel, e.fromProps)
  else none

/-- All variable-length pattern matches from `cur` (Cypher relationship
uniqueness: an edge is traversed at most once per path, tracked by index),
recorded whenever the current endpoint satisfies `isTarget`. -/
def pathsFrom (g : Graph) (isTarget : String × Props → Bool) :
    Nat → (String × Props) → List Nat → List (String × Props) → List String → List PathRow
  | 0, _, _, _, _ => []
  | fuel + 1, cur, used, nodesAcc, relsAcc =>
    (g.edges.enum.map (fun ie =>
      if used.contains ie.1 then []
      else
        match edgeStep cur ie.2 with
        | none => []
        | some nxt =>
          let nodesAcc2 := nodesAcc ++ [nxt]
          let relsAcc2 := relsAcc ++ [ie.2.relType]
          (if isTarget nxt then [⟨nodesAcc2, relsAcc2, relsAcc2.length⟩] else [])
          ++ pathsFrom g isTarget fuel nxt (ie.1 :: used) nodesAcc2 relsAcc2)).flatten

/-- Ordering of result rows used to realise `ORDER BY path_length`. -/
def rowLE (p q : PathRow) : Prop := p.path_length ≤ q.path_length

instance : DecidableRel rowLE := fun p q => Nat.decLe p.path_length q.path_length

instance : IsTotal PathRow rowLE := ⟨fun p q => Nat.le_total p.path_length q.path_length⟩

instance : IsTrans PathRow rowLE := ⟨fun _ _ _ => Nat.le_trans⟩

/-- `GraphDatabaseManager.get_paths_between`: match every undirected path of
1 to `max_hops` relationships between a node matching the from-pattern and a
node matching the to-pattern, `ORDER BY path_length`, `LIMIT 10`. -/
def get_paths_between (g : Graph) (from_label : String) (from_props : Props)
    (to_label : String) (to_props : Props) (max_hops : Nat) : List PathRow :=
  let starts := g.nodes.filter (isNodeKey from_label from_props)
  let rows := (starts.map (fun a =>
    pathsFrom g (fun k => decide (k = (to_label, to_props))) max_hops (nodeKeyOf a)
      [] [nodeKeyOf a] [])).flatten
  (List.insertionSort rowLE rows).take 10

/-! ## Vector store and embeddings (src/database/vector_db.py)

The ChromaDB collection is external; spec §6 specifies its capability as
`upsert(collection, id, text, metadata)` with entries keyed by document id,
and §8 relies on "same content hash → same id, upsert not duplicate insert".
The collection is modelled as an id-keyed list realising that contract. -/

/-- A vector collection: one `(id, document, metadata)` entry per id. -/
abbrev VStore := List (String × String × Props)

/-- `VectorDatabaseManager.add_documents` for a single document, with the
external collection operation modelled from the spec's vector-store capability
(upsert keyed by id): storing an id already present replaces that entry
instead of inserting a duplicate. -/
def vstore_upsert (vs : VStore) (id doc : String) (meta : Props) : VStore :=
  if vs.any (fun e => e.1 = id) then
    vs.map (fun e => if e.1 = id then (id, doc, meta) else e)
  else vs ++ [(id, doc, meta)]

def countDocId (vs : VStore) (id : String) : Nat :=
  (vs.filter (fun e => e.1 = id)).length

/-- `OllamaEmbeddings.__call__`: embed each input text with the external
client (outcome given by `embed`); a raised exception for one text is caught
and replaced by the 768-dimensional zero vector.  Total — no exception leaves
the loop. -/
def ollamaEmbeddingsCall (embed : String → Except String (List Float))
    (input : List String) : List (List Float) :=
  input.map (fun text =>
    match embed text with
    | Except.ok v => v
    | Except.error _ => List.replicate 768 0.0)

/-! ## Ingestion pipeline (src/ingestion/pipeline.py) -/

structure IngestionResult where
  success : Bool
  nodes_created : Nat
  relationships_created : Nat
  documents_added : Nat
  errors : List String
deriving DecidableEq, Repr

def emptyIngestionResult : IngestionResult := ⟨true, 0, 0, 0, []⟩

/-- Combined external state touched by one pipeline run. -/
structure Stores where
  graph : Graph
  vstore : VStore
deriving DecidableEq, Repr

/-- Failure injection for the pipeline's external calls: which `merge_node` /
`merge_relationship` calls raise, whether entering the graph context raises
(the only exception the `try` around the merge loop can see, since the
per-triple helpers catch their own), and whether `add_documents` raises. -/
structure PipelineEnv where
  nodeFails : String → String → Bool
  relFails : Triple → Bool
  graphCtxFail : Option String
  vectorFail : Option String

/-- `IngestionPipeline._create_node`: merge a `(label, {name})` node, catching
any exception and reporting success as a boolean. -/
def _create_node (env : PipelineEnv) (g : Graph) (label name : String) : Graph × Bool :=
  if env.nodeFails label name then (g, false)
  else (merge_node g label [("name", name)] [] [], true)

/-- `IngestionPipeline._create_relationship`: merge the triple's relationship,
catching any exception and reporting success as a boolean. -/
def _create_relationship (env : PipelineEnv) (g : Graph) (t : Triple) : Graph × Bool :=
  if env.relFails t then (g, false)
  else
    (merge_relationship g t.subject_type [("name", t.subject)] t.object_type
      [("name", t.object)] t.predicate t.properties, true)

/-- The per-triple loop of `ingest_text`: subject node, object node,
relationship; each failed merge is skipped and only successful merges are
counted. -/
def ingestTriples (env : PipelineEnv) :
    Graph → IngestionResult → List Triple → Graph × IngestionResult
  | g, res, [] => (g, res)
  | g, res, t :: rest =>
    let s1 := _create_node env g t.subject_type t.subject
    let res1 := if s1.2 then { res with nodes_created := res.nodes_created + 1 } else res
    let s2 := _create_node env s1.1 t.object_type t.object
    let res2 := if s2.2 then { res1 with nodes_created := res1.nodes_created + 1 } else res1
    let s3 := _create_relationship env s2.1 t
    let res3 :=
      if s3.2 then { res2 with relationships_created := res2.relationships_created + 1 }
      else res2
    ingestTriples env s3.1 res3 rest

/-- `IngestionPipeline._generate_doc_id`: `"doc_"` plus the first 12 hex digits
of the MD5 of the text; the digest itself is the external `hashlib.md5`,
abstracted as a function parameter (it is a pure function of the text). -/
def _generate_doc_id (md5hex : String → String) (text : String) : String :=
  "doc_" ++ (md5hex text).take 12

/-- `IngestionPipeline.ingest_text` given the extraction outcome for `text`:
record any extraction error; when triples were extracted, run the merge loop
(a graph-context failure makes the whole graph step fail: error recorded and
`success := false`); finally store the text in the vector collection under its
content-derived id, a failure there being recorded as an error only. -/
def ingest_text (env : PipelineEnv) (md5hex : String → String)
    (extraction : ExtractionResult) (text : String) (metadata : Props)
    (st : Stores) : IngestionResult × Stores :=
  let res0 := { emptyIngestionResult with
                errors := (match extraction.error with | some e => [e] | none => []) }
  let step1 :=
    if extraction.triples = [] then (st.graph, res0)
    else
      match env.graphCtxFail with
      | some m =>
        (st.graph, { res0 with
                     success := false
                     errors := res0.errors ++ ["Graph database error: " ++ m] })
      | none => ingestTriples env st.graph res0 extraction.triples
  let doc_id := _generate_doc_id md5hex text
  match env.vectorFail with
  | some m =>
    ({ step1.2 with errors := step1.2.errors ++ ["Vector database error: " ++ m] },
     { graph := step1.1, vstore := st.vstore })
  | none =>
    ({ step1.2 with documents_added := 1 },
     { graph := step1.1,
       vstore := vstore_upsert st.vstore doc_id text (setProps metadata [("source", "ingestion")]) })

/-- The no-failure environment: every external call succeeds. -/
def envOk : PipelineEnv := ⟨fun _ _ => false, fun _ => false, none, none⟩

/-! ## Hybrid retriever (modelled from the spec)

The file `src/retriever/hybrid.py` is not among the sources (only its callers
in `src/app/main.py`, `src/llm/chains.py` and the tests are), so the retriever
is modelled from spec §4.5. -/

/-- Modelled from the spec: a graph path as rendered by the retriever — an
alternating sequence of node names and relationship labels (spec §3,
`GraphPath`). -/
structure GraphPath where
  pathNodes : List String
  pathRels : List String
deriving DecidableEq, Repr

/-- Modelled from the spec: the canonical `A -[REL]-> B -[REL2]-> C` rendering
of a graph path (spec §3). -/
def GraphPath.render (p : GraphPath) : String :=
  match p.pathNodes with
  | [] => ""
  | n0 :: rest =>
    n0 ++ String.join ((p.pathRels.zip rest).map (fun rn => " -[" ++ rn.1 ++ "]-> " ++ rn.2))

/-- Modelled from the spec: the fusion core's output object (spec §3,
`RetrievalResult`); `graph_context` is the deterministic rendering of
`graph_paths`, empty when there are no paths. -/
structure RetrievalResult where
  query : String
  entities : List String
  vector_chunks : List String
  graph_paths : List GraphPath
  graph_context : String
deriving DecidableEq, Repr

/-- Modelled from the spec: `HybridRetriever.retrieve` (spec §4.5; the module
`src/retriever/hybrid.py` is missing from the sources).  `entityExtract`
produces the deduplicated candidate entity names; `graphSearch` is the graph
traversal over those entities, `none` when the graph dependency is unreachable
or times out; `vectorSearch` is the top-k similarity query.  A graph failure
must not fail the call: the retriever falls back to vector-only results and
signals the degradation as a warning-level event (returned alongside the
result), not an exception. -/
def retrieve (entityExtract : String → List String)
    (graphSearch : List String → Option (List GraphPath))
    (vectorSearch : String → List String)
    (query : String) (include_graph : Bool) : RetrievalResult × List String :=
  let entities := (entityExtract query).eraseDups
  let pathsWarn :=
    if include_graph then
      match graphSearch entities with
      | some ps => (ps, ([] : List String))
      | none => ([], ["Graph retrieval failed, falling back to vector-only results"])
    else ([], [])
  let chunks := vectorSearch query
  (⟨query, entities, chunks, pathsWarn.1,
    String.intercalate "\x0a" (pathsWarn.1.map GraphPath.render)⟩, pathsWarn.2)

/-! ## Concrete fixtures used by counterexamples and witnesses -/

/-- A decoded item whose object is whitespace only: its object normalizes to
the empty string while the raw object is non-empty (truthy). -/
def itemWSObject : ParsedItem :=
  ⟨some "techflow", some "Company", some "MANUFACTURES", some " ", some "Product", none⟩

/-- A decoded item with ordinary non-empty names. -/
def itemPlain : ParsedItem :=
  ⟨some "TechFlow Inc", some "Company", some "MANUFACTURES", some "FlowChips", some "Product", none⟩

/-- An extraction outcome with one well-formed triple. -/
def extractionOneTriple : ExtractionResult :=
  ⟨[⟨"techflow", "Company", "MANUFACTURES", "flowchips", "Product", []⟩], "t", none⟩

/-- A pipeline environment in which every node merge raises and everything
else succeeds. -/
def envNodeFail : PipelineEnv := ⟨fun _ _ => true, fun _ => false, none, none⟩

/-- The empty external state. -/
def emptyStores : Stores := ⟨⟨[], []⟩, []⟩

/-- The malformed-response events of C4: the generation call raised, or the
response contains no JSON object, or the decoder raised. -/
def malformedEvent : LLMEvent → Prop
  | LLMEvent.raised _ => True
  | LLMEvent.returned response decoded =>
    hasJsonObject response = false ∨
    (match decoded with
     | DecodeOutcome.ok _ => False
     | _ => True)

/-- The graph already holds the two endpoint nodes and the edge of a triple. -/
def absorbedTriple (g : Graph) (t : Triple) : Prop :=
  g.nodes.any (isNodeKey t.subject_type [("name", t.subject)]) = true
  ∧ g.nodes.any (isNodeKey t.object_type [("name", t.object)]) = true
  ∧ g.edges.any (isEdgeKey t.subject_type [("name", t.subject)] t.object_type
      [("name", t.object)] t.predicate) = true

/-- The graph effect of one failure-free loop iteration of `ingest_text`:
subject node merge, object node merge, relationship merge. -/
def tripleStepG (t : Triple) (g : Graph) : Graph :=
  merge_relationship
    (merge_node (merge_node g t.subject_type [("name", t.subject)] [] [])
      t.object_type [("name", t.object)] [] [])
    t.subject_type [("name", t.subject)] t.object_type [("name", t.object)]
    t.predicate t.properties

/-- Whitespace-normal form: every whitespace character is a plain space and no
two adjacent characters are both whitespace.  This is the shape `collapseWS`
produces and on which it acts as the identity. -/
def WSNormal (l : List Char) : Prop :=
  (∀ c ∈ l, isPySpace c = true → c = ' ')
  ∧ l.Chain' (fun a b => isPySpace a = false ∨ isPySpace b = false)

/-! # Theorems

General-purpose helper lemmas first, then one theorem per claim (with its
counterexample and witness where applicable). -/

theorem str_append_ne_empty (a b : String) (h : a.data ≠ []) : a ++ b ≠ "" := by
  intro hc
  apply h
  have hd : (a ++ b).data = a.data ++ b.data := rfl
  rw [hc] at hd
  exact (List.append_eq_nil.mp hd.symm).1

theorem splitOnFirst_eq_none (pat s : String) (h : containsSub pat s = false) :
    splitOnFirst pat.data s.data = none := by
  unfold containsSub at h
  cases hx : splitOnFirst pat.data s.data with
  | none => rfl
  | some v => rw [hx] at h; simp at h

/-- C4: for every generation-service response with no parseable JSON object,
malformed JSON, or any unexpected exception, `extract` returns an
`ExtractionResult` with an empty triples list and a non-empty error, and (being
a total function of the event) never raises to its caller. -/
theorem extract_malformed_response_error (normalize : Bool) (text : String)
    (ev : LLMEvent) (h : malformedEvent ev) :
    (extract normalize text ev).triples = []
    ∧ ∃ m, (extract normalize text ev).error = some m ∧ m ≠ "" := by
  cases ev with
  | raised m =>
    refine ⟨rfl, "Extraction failed: " ++ m, rfl, ?_⟩
    exact str_append_ne_empty _ _ (by decide)
  | returned response decoded =>
    unfold malformedEvent at h
    by_cases hj : hasJsonObject response
    · rcases h with h | h
      · rw [hj] at h; cases h
      · cases decoded with
        | jsonError m =>
          refine ⟨?_, "Failed to parse LLM response as JSON: " ++ m, ?_, ?_⟩
          · simp [extract, parseResponse, hj]
          · simp [extract, parseResponse, hj]
          · exact str_append_ne_empty _ _ (by decide)
        | shapeError m =>
          refine ⟨?_, "Extraction failed: " ++ m, ?_, ?_⟩
          · simp [extract, parseResponse, hj]
          · simp [extract, parseResponse, hj]
          · exact str_append_ne_empty _ _ (by decide)
        | ok items => cases h
    · have hj' : hasJsonObject response = false := by
        cases hx : hasJsonObject response
        · rfl
        · exact absurd hx hj
      refine ⟨?_, "No JSON object found in response: " ++ response.take 200, ?_, ?_⟩
      · simp [extract, parseResponse, hj']
      · simp [extract, parseResponse, hj']
      · exact str_append_ne_empty _ _ (by decide)

/-- Witness for C4 at a concrete malformed response. -/
theorem extract_malformed_response_error_witness :
    (extract true "Some text"
        (LLMEvent.returned "This is not valid JSON" (DecodeOutcome.ok []))).triples = []
    ∧ ∃ m, (extract true "Some text"
        (LLMEvent.returned "This is not valid JSON" (DecodeOutcome.ok []))).error = some m ∧ m ≠ "" :=
  extract_malformed_response_error true "Some text"
    (LLMEvent.returned "This is not valid JSON" (DecodeOutcome.ok []))
    (Or.inl (by decide))

/-- C5 (spec-modelled, `src/retriever/hybrid.py` is not among the sources): if
the graph dependency is unreachable, `retrieve(query, include_graph := true)`
still returns a `RetrievalResult` — empty `graph_paths`, non-empty
`vector_chunks` whenever the healthy vector store returns results — and the
degradation is signalled as a warning event, not an exception. -/
theorem retrieve_graph_failure_degrades (entityExtract : String → List String)
    (graphSearch : List String → Option (List GraphPath))
    (vectorSearch : String → List String) (query : String)
    (hg : graphSearch ((entityExtract query).eraseDups) = none)
    (hv : vectorSearch query ≠ []) :
    (retrieve entityExtract graphSearch vectorSearch query true).1.graph_paths = []
    ∧ (retrieve entityExtract graphSearch vectorSearch query true).1.vector_chunks ≠ []
    ∧ (retrieve entityExtract graphSearch vectorSearch query true).2 ≠ [] := by
  refine ⟨?_, ?_, ?_⟩ <;> simp [retrieve, hg, hv]

/-- Witness for C5 at a concrete unreachable graph and healthy vector store. -/
theorem retrieve_graph_failure_degrades_witness :
    (retrieve (fun _ => ["techflow"]) (fun _ => none) (fun _ => ["chunk about techflow"])
        "how is techflow connected" true).1.graph_paths = []
    ∧ (retrieve (fun _ => ["techflow"]) (fun _ => none) (fun _ => ["chunk about techflow"])
        "how is techflow connected" true).1.vector_chunks ≠ []
    ∧ (retrieve (fun _ => ["techflow"]) (fun _ => none) (fun _ => ["chunk about techflow"])
        "how is techflow connected" true).2 ≠ [] :=
  retrieve_graph_failure_degrades (fun _ => ["techflow"]) (fun _ => none)
    (fun _ => ["chunk about techflow"]) "how is techflow connected" rfl (by decide)

/-- C7: a generation-service response containing none of the six
entities/reasoning/answer delimiter tags parses to a `ReasoningResponse` whose
answer is the raw response and whose entities and reasoning are empty; the
parse is a total function, so it never raises. -/
theorem parse_from_response_no_tags (response : String)
    (h1 : containsSub "<entities>" response = false)
    (h2 : containsSub "</entities>" response = false)
    (h3 : containsSub "<reasoning>" response = false)
    (h4 : containsSub "</reasoning>" response = false)
    (h5 : containsSub "<answer>" response = false)
    (h6 : containsSub "</answer>" response = false) :
    (parse_from_response response).answer = response
    ∧ (parse_from_response response).entities = ""
    ∧ (parse_from_response response).reasoning = "" := by
  have e1 := splitOnFirst_eq_none _ _ h1
  have e3 := splitOnFirst_eq_none _ _ h3
  have e4 := splitOnFirst_eq_none _ _ h4
  have e5 := splitOnFirst_eq_none _ _ h5
  refine ⟨?_, ?_, ?_⟩ <;> simp [parse_from_response, extractTag, e1, e3, e4, e5]

/-- Witness for C7 at a concrete tag-free response. -/
theorem parse_from_response_no_tags_witness :
    (parse_from_response "The strike will impact operations.").answer
        = "The strike will impact operations."
    ∧ (parse_from_response "The strike will impact operations.").entities = ""
    ∧ (parse_from_response "The strike will impact operations.").reasoning = "" :=
  parse_from_response_no_tags "The strike will impact operations."
    (by decide) (by decide) (by decide) (by decide) (by decide) (by decide)

/-- C10: `OllamaEmbeddings.__call__` returns exactly one embedding per input
text, substituting the 768-dimensional zero vector whenever embedding an
individual text raises; as a total function of the embedding outcomes it never
raises. -/
theorem ollama_embeddings_call_shape (embed : String → Except String (List Float))
    (input : List String) :
    (ollamaEmbeddingsCall embed input).length = input.length
    ∧ ∀ i e, i < input.length → embed (input.getD i "") = Except.error e →
        (ollamaEmbeddingsCall embed input).getD i [] = List.replicate 768 0.0 := by
  constructor
  · exact List.length_map _ _
  · intro i e hi he
    induction input generalizing i with
    | nil => simp at hi
    | cons x xs ih =>
      cases i with
      | zero =>
        have hx : embed x = Except.error e := by simpa [List.getD_cons_zero] using he
        simp [ollamaEmbeddingsCall, List.getD_cons_zero, hx]
      | succ n =>
        have hn : n < xs.length := by simpa using hi
        have he' : embed (xs.getD n "") = Except.error e := by
          simpa [List.getD_cons_succ] using he
        have hr := ih n hn he'
        simpa [ollamaEmbeddingsCall, List.getD_cons_succ] using hr

/-- Witness for C10 at a concrete failing embedding service. -/
theorem ollama_embeddings_call_shape_witness :
    (ollamaEmbeddingsCall (fun _ => Except.error "connection refused") ["a text"]).length
        = (["a text"] : List String).length
    ∧ (ollamaEmbeddingsCall (fun _ => Except.error "connection refused") ["a text"]).getD 0 []
        = List.replicate 768 0.0 :=
  ⟨(ollama_embeddings_call_shape (fun _ => Except.error "connection refused") ["a text"]).1,
   (ollama_embeddings_call_shape (fun _ => Except.error "connection refused") ["a text"]).2
     0 "connection refused" (by decide) rfl⟩

/-- C6: for every graph state, endpoint patterns and hop bound, the path query
returns at most 10 rows, ordered by non-decreasing hop count. -/
theorem get_paths_between_cap_and_sorted (g : Graph) (fl : String) (fp : Props)
    (tl : String) (tp : Props) (h : Nat) :
    (get_paths_between g fl fp tl tp h).length ≤ 10
    ∧ (get_paths_between g fl fp tl tp h).Pairwise rowLE := by
  constructor
  · simp only [get_paths_between]
    exact List.length_take_le 10 _
  · simp only [get_paths_between]
    exact List.Pairwise.sublist (List.take_sublist 10 _) (List.sorted_insertionSort rowLE _)

theorem isNodeKey_set_attrs (label : String) (props : Props) (n : GNode) (a : Props) :
    isNodeKey label props { n with attrs := a } = isNodeKey label props n := rfl

theorem isEdgeKey_set_attrs (fl : String) (fp : Props) (tl : String) (tp : Props)
    (rt : String) (e : GEdge) (a : Props) :
    isEdgeKey fl fp tl tp rt { e with attrs := a } = isEdgeKey fl fp tl tp rt e := rfl

theorem merge_node_contains (g : Graph) (l : String) (p oc om : Props) :
    (merge_node g l p oc om).nodes.any (isNodeKey l p) = true := by
  unfold merge_node
  by_cases h : g.nodes.any (isNodeKey l p)
  · simp only [h, if_true]
    rcases List.any_eq_true.mp h with ⟨x, hx, hk⟩
    refine List.any_eq_true.mpr ⟨_, List.mem_map_of_mem _ hx, ?_⟩
    simp [hk, isNodeKey_set_attrs]
  · simp only [h, if_false]
    refine List.any_eq_true.mpr ⟨_, List.mem_append_right _ (List.mem_singleton_self _), ?_⟩
    simp [isNodeKey]

theorem merge_node_contains_mono (g : Graph) (l : String) (p oc om : Props)
    (l' : String) (p' : Props) (h : g.nodes.any (isNodeKey l' p') = true) :
    (merge_node g l p oc om).nodes.any (isNodeKey l' p') = true := by
  unfold merge_node
  by_cases hc : g.nodes.any (isNodeKey l p)
  · simp only [hc, if_true]
    rcases List.any_eq_true.mp h with ⟨x, hx, hk⟩
    refine List.any_eq_true.mpr ⟨_, List.mem_map_of_mem _ hx, ?_⟩
    by_cases hxk : isNodeKey l p x
    · simp [hxk, isNodeKey_set_attrs, hk]
    · simp [hxk, hk]
  · simp only [hc, if_false]
    rcases List.any_eq_true.mp h with ⟨x, hx, hk⟩
    exact List.any_eq_true.mpr ⟨x, List.mem_append_left _ hx, hk⟩

theorem merge_node_len_of_contains (g : Graph) (l : String) (p oc om : Props)
    (h : g.nodes.any (isNodeKey l p) = true) :
    (merge_node g l p oc om).nodes.length = g.nodes.length := by
  simp [merge_node, h]

theorem merge_node_edges (g : Graph) (l : String) (p oc om : Props) :
    (merge_node g l p oc om).edges = g.edges := by
  unfold merge_node
  by_cases h : g.nodes.any (isNodeKey l p) <;> simp [h]

theorem merge_relationship_nodes_any (g : Graph) (fl : String) (fp : Props)
    (tl : String) (tp : Props) (rt : String) (rp : Props) (l' : String) (p' : Props)
    (h : g.nodes.any (isNodeKey l' p') = true) :
    (merge_relationship g fl fp tl tp rt rp).nodes.any (isNodeKey l' p') = true := by
  unfold merge_relationship
  have h2 := merge_node_contains_mono (merge_node g fl fp [] []) tl tp [] [] l' p'
    (merge_node_contains_mono g fl fp [] [] l' p' h)
  by_cases hc : (merge_node (merge_node g fl fp [] []) tl tp [] []).edges.any
      (isEdgeKey fl fp tl tp rt) <;> simpa [hc] using h2

theorem merge_relationship_contains_from (g : Graph) (fl : String) (fp : Props)
    (tl : String) (tp : Props) (rt : String) (rp : Props) :
    (merge_relationship g fl fp tl tp rt rp).nodes.any (isNodeKey fl fp) = true := by
  unfold merge_relationship
  have h2 := merge_node_contains_mono (merge_node g fl fp [] []) tl tp [] [] fl fp
    (merge_node_contains g fl fp [] [])
  by_cases hc : (merge_node (merge_node g fl fp [] []) tl tp [] []).edges.any
      (isEdgeKey fl fp tl tp rt) <;> simpa [hc] using h2

theorem merge_relationship_contains_to (g : Graph) (fl : String) (fp : Props)
    (tl : String) (tp : Props) (rt : String) (rp : Props) :
    (merge_relationship g fl fp tl tp rt rp).nodes.any (isNodeKey tl tp) = true := by
  unfold merge_relationship
  have h2 := merge_node_contains (merge_node g fl fp [] []) tl tp [] []
  by_cases hc : (merge_node (merge_node g fl fp [] []) tl tp [] []).edges.any
      (isEdgeKey fl fp tl tp rt) <;> simpa [hc] using h2

theorem merge_relationship_contains_edge (g : Graph) (fl : String) (fp : Props)
    (tl : String) (tp : Props) (rt : String) (rp : Props) :
    (merge_relationship g fl fp tl tp rt rp).edges.any (isEdgeKey fl fp tl tp rt) = true := by
  unfold merge_relationship
  by_cases hc : (merge_node (merge_node g fl fp [] []) tl tp [] []).edges.any
      (isEdgeKey fl fp tl tp rt)
  · simp only [hc, if_true]
    rcases List.any_eq_true.mp hc with ⟨x, hx, hk⟩
    refine List.any_eq_true.mpr ⟨_, List.mem_map_of_mem _ hx, ?_⟩
    simp [hk, isEdgeKey_set_attrs]
  · simp only [hc, if_false]
    refine List.any_eq_true.mpr ⟨_, List.mem_append_right _ (List.mem_singleton_self _), ?_⟩
    simp [isEdgeKey]

theorem merge_relationship_edges_any (g : Graph) (fl : String) (fp : Props)
    (tl : String) (tp : Props) (rt : String) (rp : Props)
    (fl' : String) (fp' : Props) (tl' : String) (tp' : Props) (rt' : String)
    (h : g.edges.any (isEdgeKey fl' fp' tl' tp' rt') = true) :
    (merge_relationship g fl fp tl tp rt rp).edges.any (isEdgeKey fl' fp' tl' tp' rt') = true := by
  simp only [merge_relationship]
  rw [merge_node_edges, merge_node_edges]
  by_cases hc : g.edges.any (isEdgeKey fl fp tl tp rt)
  · simp only [hc, if_true]
    rcases List.any_eq_true.mp h with ⟨x, hx, hk⟩
    refine List.any_eq_true.mpr ⟨_, List.mem_map_of_mem _ hx, ?_⟩
    by_cases hxk : isEdgeKey fl fp tl tp rt x
    · simp [hxk, isEdgeKey_set_attrs, hk]
    · simp [hxk, hk]
  · simp only [hc, if_false]
    rcases List.any_eq_true.mp h with ⟨x, hx, hk⟩
    exact List.any_eq_true.mpr ⟨x, List.mem_append_left _ hx, hk⟩

theorem merge_relationship_len_of_contains (g : Graph) (fl : String) (fp : Props)
    (tl : String) (tp : Props) (rt : String) (rp : Props)
    (hf : g.nodes.any (isNodeKey fl fp) = true)
    (ht : g.nodes.any (isNodeKey tl tp) = true)
    (he : g.edges.any (isEdgeKey fl fp tl tp rt) = true) :
    (merge_relationship g fl fp tl tp rt rp).nodes.length = g.nodes.length
    ∧ (merge_relationship g fl fp tl tp rt rp).edges.length = g.edges.length := by
  have hf2 : (merge_node (merge_node g fl fp [] []) tl tp [] []).edges = g.edges := by
    rw [merge_node_edges, merge_node_edges]
  have hlen : (merge_node (merge_node g fl fp [] []) tl tp [] []).nodes.length
      = g.nodes.length := by
    rw [merge_node_len_of_contains _ _ _ _ _ (merge_node_contains_mono g fl fp [] [] tl tp ht),
      merge_node_len_of_contains _ _ _ _ _ hf]
  simp only [merge_relationship]
  rw [hf2]
  simp only [he, if_true]
  exact ⟨hlen, List.length_map _ _⟩

/-- C9: `merge_relationship` itself merges both endpoint nodes before merging
the edge — after the call both endpoints and the edge are present even if no
node-merge ran before — and repeating the call with the same endpoints and
relationship type creates no new node and no new edge. -/
theorem merge_relationship_endpoints_and_idempotent (g : Graph) (fl : String)
    (fp : Props) (tl : String) (tp : Props) (rt : String) (rp : Props) :
    (merge_relationship g fl fp tl tp rt rp).nodes.any (isNodeKey fl fp) = true
    ∧ (merge_relationship g fl fp tl tp rt rp).nodes.any (isNodeKey tl tp) = true
    ∧ (merge_relationship g fl fp tl tp rt rp).edges.any (isEdgeKey fl fp tl tp rt) = true
    ∧ (merge_relationship (merge_relationship g fl fp tl tp rt rp) fl fp tl tp rt rp).nodes.length
        = (merge_relationship g fl fp tl tp rt rp).nodes.length
    ∧ (merge_relationship (merge_relationship g fl fp tl tp rt rp) fl fp tl tp rt rp).edges.length
        = (merge_relationship g fl fp tl tp rt rp).edges.length := by
  refine ⟨merge_relationship_contains_from g fl fp tl tp rt rp,
    merge_relationship_contains_to g fl fp tl tp rt rp,
    merge_relationship_contains_edge g fl fp tl tp rt rp, ?_, ?_⟩
  · exact (merge_relationship_len_of_contains _ fl fp tl tp rt rp
      (merge_relationship_contains_from g fl fp tl tp rt rp)
      (merge_relationship_contains_to g fl fp tl tp rt rp)
      (merge_relationship_contains_edge g fl fp tl tp rt rp)).1
  · exact (merge_relationship_len_of_contains _ fl fp tl tp rt rp
      (merge_relationship_contains_from g fl fp tl tp rt rp)
      (merge_relationship_contains_to g fl fp tl tp rt rp)
      (merge_relationship_contains_edge g fl fp tl tp rt rp)).2

theorem normalize_empty : normalize_entity_name "" = "" := rfl

theorem pyOr_norm_eq_empty (s : String) :
    pyOr (normalize_entity_name s) s = "" ↔ s = "" := by
  unfold pyOr
  by_cases h : normalize_entity_name s = ""
  · simp [h]
  · rw [if_neg h]
    constructor
    · intro hh
      exact absurd hh h
    · intro hs
      subst hs
      exact absurd normalize_empty h

/-- C2 counterexample: a parsed item whose object is the non-empty string
`" "` — which normalizes to the empty string — is kept (with the raw object
restored by the `or`-fallback), not dropped: the parse returns one triple, and
that triple's object normalizes to the empty string. -/
theorem parse_keeps_whitespace_object :
    parseItems true [itemWSObject]
        = [⟨"techflow", "Company", "MANUFACTURES", " ", "Product", []⟩]
    ∧ normalize_entity_name " " = "" := by
  constructor
  · decide
  · rfl

/-- C2 (amended): every triple returned by the extractor's response parsing has
a non-empty subject and object after the `normalize-or-raw` fallback, and a
parsed item is dropped — reducing the returned count by exactly one — precisely
when its raw subject or raw object is empty or missing.  (An item whose
non-empty subject or object merely normalizes to the empty string is kept with
the raw name restored.) -/
theorem parse_response_filters_raw_empty (items : List ParsedItem) :
    (∀ t ∈ parseItems true items, t.subject ≠ "" ∧ t.object ≠ "")
    ∧ (parseItems true items).length
        = (items.filter
            (fun it => decide (it.subject.getD "" ≠ "" ∧ it.object.getD "" ≠ ""))).length := by
  induction items with
  | nil => exact ⟨fun t ht => absurd ht (List.not_mem_nil t), rfl⟩
  | cons it rest ih =>
    have hsub : (normalizeTriple (itemToTriple it)).subject = pyOr
        (normalize_entity_name (it.subject.getD "")) (it.subject.getD "") := rfl
    have hobj : (normalizeTriple (itemToTriple it)).object = pyOr
        (normalize_entity_name (it.object.getD "")) (it.object.getD "") := rfl
    by_cases hc : (normalizeTriple (itemToTriple it)).subject ≠ ""
        ∧ (normalizeTriple (itemToTriple it)).object ≠ ""
    · have hraw : (it.subject.getD "" ≠ "" ∧ it.object.getD "" ≠ "") := by
        constructor
        · intro hx
          exact hc.1 (by rw [hsub]; exact (pyOr_norm_eq_empty _).mpr hx)
        · intro hx
          exact hc.2 (by rw [hobj]; exact (pyOr_norm_eq_empty _).mpr hx)
      have hstep : parseItems true (it :: rest)
          = normalizeTriple (itemToTriple it) :: parseItems true rest := by
        simp only [parseItems, List.foldr_cons, if_true, hc]
        simp [hc]
      constructor
      · intro t ht
        rw [hstep] at ht
        rcases List.mem_cons.mp ht with h | h
        · subst h; exact hc
        · exact ih.1 t h
      · rw [hstep]
        have hdec : decide (it.subject.getD "" ≠ "" ∧ it.object.getD "" ≠ "") = true := by
          simpa using hraw
        rw [List.filter_cons, hdec, if_pos rfl]
        simp only [List.length_cons, ih.2]
    · have hraw : ¬(it.subject.getD "" ≠ "" ∧ it.object.getD "" ≠ "") := by
        intro hx
        apply hc
        constructor
        · rw [hsub]
          intro he
          exact hx.1 ((pyOr_norm_eq_empty _).mp he)
        · rw [hobj]
          intro he
          exact hx.2 ((pyOr_norm_eq_empty _).mp he)
      have hstep : parseItems true (it :: rest) = parseItems true rest := by
        simp only [parseItems, List.foldr_cons]
        simp [hc]
      constructor
      · intro t ht
        rw [hstep] at ht
        exact ih.1 t ht
      · rw [hstep]
        have hdec : decide (it.subject.getD "" ≠ "" ∧ it.object.getD "" ≠ "") = false := by
          simpa using hraw
        rw [List.filter_cons, hdec]
        simp only [Bool.false_eq_true, if_false]
        exact ih.2

/-- Witness for C2 (amended) at a concrete kept item. -/
theorem parse_response_filters_raw_empty_witness :
    (⟨"techflow", "Company", "MANUFACTURES", "flowchips", "Product", []⟩ : Triple).subject ≠ ""
    ∧ (⟨"techflow", "Company", "MANUFACTURES", "flowchips", "Product", []⟩ : Triple).object ≠ "" :=
  (parse_response_filters_raw_empty [itemPlain]).1
    ⟨"techflow", "Company", "MANUFACTURES", "flowchips", "Product", []⟩ (by decide)

theorem ingestTriples_result (env : PipelineEnv) (g : Graph) (res : IngestionResult)
    (ts : List Triple) :
    (ingestTriples env g res ts).2.success = res.success
    ∧ (ingestTriples env g res ts).2.errors = res.errors
    ∧ (ingestTriples env g res ts).2.relationships_created
        = res.relationships_created + (ts.filter (fun t => !env.relFails t)).length := by
  induction ts generalizing g res with
  | nil => exact ⟨rfl, rfl, by simp [ingestTriples]⟩
  | cons t rest ih =>
    simp only [ingestTriples]
    by_cases h1 : env.nodeFails t.subject_type t.subject <;>
      by_cases h2 : env.nodeFails t.object_type t.object <;>
        by_cases h3 : env.relFails t <;>
          · simp only [_create_node, _create_relationship, h1, h2, h3, if_true, if_false,
              Bool.not_true, Bool.not_false, List.filter_cons]
            refine ⟨(ih _ _).1, (ih _ _).2.1, ?_⟩
            rw [(ih _ _).2.2]
            simp [h3]
            try omega

/-- C8 counterexample: with one extracted triple whose two node merges raise
(and everything else healthy), `ingest_text` leaves the errors list empty —
the merge failures are only logged and skipped, not accumulated — while
`success` stays true. -/
theorem ingest_text_merge_failure_not_in_errors :
    (ingest_text envNodeFail (fun _ => "9e107d9d372bb6826bd81d3542a419d6") extractionOneTriple
        "t" [] emptyStores).1.errors = []
    ∧ (ingest_text envNodeFail (fun _ => "9e107d9d372bb6826bd81d3542a419d6") extractionOneTriple
        "t" [] emptyStores).1.success = true
    ∧ (ingest_text envNodeFail (fun _ => "9e107d9d372bb6826bd81d3542a419d6") extractionOneTriple
        "t" [] emptyStores).1.nodes_created = 0 := by
  refine ⟨?_, ?_, ?_⟩ <;> decide

/-- C8 (amended): `success` is false exactly when a non-recoverable graph step
occurred (the graph context raised while there were triples to merge);
extraction errors and vector-store errors are accumulated in the errors list
without touching `success`, while individual per-triple node/relationship merge
failures are skipped — they abort nothing, are counted out of the created
counters, and are *not* added to the errors list. -/
theorem ingest_text_error_isolation (env : PipelineEnv) (md5hex : String → String)
    (extraction : ExtractionResult) (text : String) (meta : Props) (st : Stores) :
    ((ingest_text env md5hex extraction text meta st).1.success = false
      ↔ (env.graphCtxFail.isSome = true ∧ extraction.triples ≠ []))
    ∧ (env.graphCtxFail = none →
        (ingest_text env md5hex extraction text meta st).1.errors
          = (match extraction.error with | some e => [e] | none => [])
            ++ (match env.vectorFail with
                | some m => ["Vector database error: " ++ m]
                | none => [])
        ∧ (ingest_text env md5hex extraction text meta st).1.relationships_created
            = (extraction.triples.filter (fun t => !env.relFails t)).length) := by
  have hr := ingestTriples_result env st.graph
    ⟨true, 0, 0, 0, (match extraction.error with | some e => [e] | none => [])⟩
    extraction.triples
  constructor
  · by_cases hts : extraction.triples = []
    · simp only [ingest_text, hts, if_true]
      cases hv : env.vectorFail <;>
        simp [hts, emptyIngestionResult]
    · cases hg : env.graphCtxFail with
      | some m =>
        simp only [ingest_text, hts, if_false, hg]
        cases hv : env.vectorFail <;> simp [hts, emptyIngestionResult]
      | none =>
        simp only [ingest_text, hts, if_false, hg]
        cases hv : env.vectorFail <;>
          simp [hts, emptyIngestionResult, hr.1]
  · intro hg
    by_cases hts : extraction.triples = []
    · simp only [ingest_text, hts, if_true]
      constructor
      · cases hv : env.vectorFail <;> simp [emptyIngestionResult]
      · cases hv : env.vectorFail <;> simp [emptyIngestionResult, hts]
    · simp only [ingest_text, hts, if_false, hg]
      constructor
      · cases hv : env.vectorFail <;> simp [hr.2.1, emptyIngestionResult]
      · cases hv : env.vectorFail <;> simp [hr.2.2, emptyIngestionResult]

/-- Witness for C8 (amended) at a concrete run with a failing relationship
merge and a failing vector store. -/
theorem ingest_text_error_isolation_witness :
    ((ingest_text ⟨fun _ _ => false, fun _ => true, none, some "down"⟩
        (fun _ => "9e107d9d372bb6826bd81d3542a419d6") extractionOneTriple "t" []
        emptyStores).1.success = false
      ↔ ((⟨fun _ _ => false, fun _ => true, none, some "down"⟩ :
            PipelineEnv).graphCtxFail.isSome = true ∧ extractionOneTriple.triples ≠ []))
    ∧ (ingest_text ⟨fun _ _ => false, fun _ => true, none, some "down"⟩
        (fun _ => "9e107d9d372bb6826bd81d3542a419d6") extractionOneTriple "t" []
        emptyStores).1.errors = ["Vector database error: down"]
    ∧ (ingest_text ⟨fun _ _ => false, fun _ => true, none, some "down"⟩
        (fun _ => "9e107d9d372bb6826bd81d3542a419d6") extractionOneTriple "t" []
        emptyStores).1.relationships_created = 0 := by
  have h := ingest_text_error_isolation ⟨fun _ _ => false, fun _ => true, none, some "down"⟩
    (fun _ => "9e107d9d372bb6826bd81d3542a419d6") extractionOneTriple "t" [] emptyStores
  have h2 := h.2 rfl
  exact ⟨h.1, by rw [h2.1]; decide, by rw [h2.2]; decide⟩

theorem tripleStepG_absorbs_self (t : Triple) (g : Graph) :
    absorbedTriple (tripleStepG t g) t :=
  ⟨merge_relationship_contains_from _ _ _ _ _ _ _,
   merge_relationship_contains_to _ _ _ _ _ _ _,
   merge_relationship_contains_edge _ _ _ _ _ _ _⟩

theorem tripleStepG_mono (t u : Triple) (g : Graph) (h : absorbedTriple g u) :
    absorbedTriple (tripleStepG t g) u := by
  obtain ⟨hs, ho, he⟩ := h
  refine ⟨?_, ?_, ?_⟩
  · exact merge_relationship_nodes_any _ _ _ _ _ _ _ _ _
      (merge_node_contains_mono _ _ _ _ _ _ _
        (merge_node_contains_mono _ _ _ _ _ _ _ hs))
  · exact merge_relationship_nodes_any _ _ _ _ _ _ _ _ _
      (merge_node_contains_mono _ _ _ _ _ _ _
        (merge_node_contains_mono _ _ _ _ _ _ _ ho))
  · apply merge_relationship_edges_any
    rw [merge_node_edges, merge_node_edges]
    exact he

theorem tripleStepG_len_of_absorbed (t : Triple) (g : Graph) (h : absorbedTriple g t) :
    (tripleStepG t g).nodes.length = g.nodes.length
    ∧ (tripleStepG t g).edges.length = g.edges.length := by
  obtain ⟨hs, ho, he⟩ := h
  have hs2 := merge_node_contains_mono g t.subject_type [("name", t.subject)] [] []
    t.object_type [("name", t.object)] ho
  have hlen1 := merge_node_len_of_contains g t.subject_type [("name", t.subject)] [] [] hs
  have hlen2 := merge_node_len_of_contains _ t.object_type [("name", t.object)] [] [] hs2
  have hedges : (merge_node (merge_node g t.subject_type [("name", t.subject)] [] [])
      t.object_type [("name", t.object)] [] []).edges = g.edges := by
    rw [merge_node_edges, merge_node_edges]
  have hmr := merge_relationship_len_of_contains
    (merge_node (merge_node g t.subject_type [("name", t.subject)] [] [])
      t.object_type [("name", t.object)] [] [])
    t.subject_type [("name", t.subject)] t.object_type [("name", t.object)]
    t.predicate t.properties
    (merge_node_contains_mono _ _ _ _ _ _ _
      (merge_node_contains g t.subject_type [("name", t.subject)] [] []))
    (merge_node_contains _ _ _ _ _)
    (by rw [hedges]; exact he)
  constructor
  · rw [tripleStepG, hmr.1, hlen2, hlen1]
  · rw [tripleStepG, hmr.2, hedges]

theorem foldl_tripleStep_mono (ts : List Triple) (g : Graph) (u : Triple)
    (h : absorbedTriple g u) :
    absorbedTriple (ts.foldl (fun acc t => tripleStepG t acc) g) u := by
  induction ts generalizing g with
  | nil => exact h
  | cons t rest ih => exact ih (tripleStepG t g) (tripleStepG_mono t u g h)

theorem foldl_tripleStep_absorbs (ts : List Triple) (g : Graph) :
    ∀ t ∈ ts, absorbedTriple (ts.foldl (fun acc t => tripleStepG t acc) g) t := by
  induction ts generalizing g with
  | nil => intro t ht; exact absurd ht (List.not_mem_nil t)
  | cons t rest ih =>
    intro u hu
    rcases List.mem_cons.mp hu with h | h
    · subst h
      exact foldl_tripleStep_mono rest (tripleStepG u g) u (tripleStepG_absorbs_self u g)
    · exact ih (tripleStepG t g) u h

theorem foldl_tripleStep_len (ts : List Triple) (g : Graph)
    (h : ∀ t ∈ ts, absorbedTriple g t) :
    (ts.foldl (fun acc t => tripleStepG t acc) g).nodes.length = g.nodes.length
    ∧ (ts.foldl (fun acc t => tripleStepG t acc) g).edges.length = g.edges.length := by
  induction ts generalizing g with
  | nil => exact ⟨rfl, rfl⟩
  | cons t rest ih =>
    have ht := h t (List.mem_cons_self t rest)
    have hstep := tripleStepG_len_of_absorbed t g ht
    have hrest : ∀ u ∈ rest, absorbedTriple (tripleStepG t g) u := by
      intro u hu
      exact tripleStepG_mono t u g (h u (List.mem_cons_of_mem t hu))
    have := ih (tripleStepG t g) hrest
    exact ⟨by rw [List.foldl_cons, this.1, hstep.1], by rw [List.foldl_cons, this.2, hstep.2]⟩

theorem ingestTriples_graph_envOk (g : Graph) (res : IngestionResult) (ts : List Triple) :
    (ingestTriples envOk g res ts).1 = ts.foldl (fun acc t => tripleStepG t acc) g := by
  induction ts generalizing g res with
  | nil => rfl
  | cons t rest ih =>
    simp only [ingestTriples, _create_node, _create_relationship, envOk, if_false,
      List.foldl_cons]
    exact ih _ _

theorem ingest_text_envOk_state (md5hex : String → String) (extraction : ExtractionResult)
    (text : String) (meta : Props) (st : Stores) :
    (ingest_text envOk md5hex extraction text meta st).2
      = ⟨extraction.triples.foldl (fun acc t => tripleStepG t acc) st.graph,
         vstore_upsert st.vstore (_generate_doc_id md5hex text) text
           (setProps meta [("source", "ingestion")])⟩ := by
  have hnone1 : envOk.graphCtxFail = none := rfl
  have hnone2 : envOk.vectorFail = none := rfl
  by_cases hts : extraction.triples = []
  · simp only [ingest_text, hts, if_true, hnone2]
    rfl
  · simp only [ingest_text, hts, if_false, hnone1, hnone2]
    rw [ingestTriples_graph_envOk]

theorem vstore_upsert_contains (vs : VStore) (id d : String) (m : Props) :
    (vstore_upsert vs id d m).any (fun e => e.1 = id) = true := by
  unfold vstore_upsert
  by_cases h : vs.any (fun e => e.1 = id)
  · rw [if_pos h]
    rcases List.any_eq_true.mp h with ⟨x, hx, hk⟩
    refine List.any_eq_true.mpr ⟨_, List.mem_map_of_mem _ hx, ?_⟩
    have hxe : x.1 = id := by simpa using hk
    simp [hxe]
  · rw [if_neg h]
    refine List.any_eq_true.mpr ⟨_, List.mem_append_right _ (List.mem_singleton_self _), ?_⟩
    simp

theorem vstore_upsert_len_of_contains (vs : VStore) (id d : String) (m : Props)
    (h : vs.any (fun e => e.1 = id) = true) :
    (vstore_upsert vs id d m).length = vs.length := by
  simp [vstore_upsert, h]

theorem countDocId_map_subst (vs : VStore) (id d : String) (m : Props) :
    countDocId (vs.map (fun e => if e.1 = id then (id, d, m) else e)) id
      = countDocId vs id := by
  induction vs with
  | nil => rfl
  | cons e rest ih =>
    by_cases he : e.1 = id
    · simp only [countDocId, List.map_cons, List.filter_cons] at ih ⊢
      simp [he, ih]
    · simp only [countDocId, List.map_cons, List.filter_cons] at ih ⊢
      simp [he, ih]

theorem countDocId_zero_iff (vs : VStore) (id : String) :
    countDocId vs id = 0 ↔ vs.any (fun e => e.1 = id) = false := by
  unfold countDocId
  rw [List.length_eq_zero, List.filter_eq_nil_iff, List.any_eq_false]

theorem countDocId_upsert_of_absent (vs : VStore) (id d : String) (m : Props)
    (h : vs.any (fun e => e.1 = id) = false) :
    countDocId (vstore_upsert vs id d m) id = 1 := by
  unfold vstore_upsert
  rw [h]
  simp only [Bool.false_eq_true, if_false]
  unfold countDocId
  rw [List.filter_append]
  have h0 : (vs.filter (fun e => e.1 = id)).length = 0 := (countDocId_zero_iff vs id).mpr h
  simp only [List.length_append, h0]
  simp

theorem countDocId_upsert_of_present (vs : VStore) (id d : String) (m : Props)
    (h : vs.any (fun e => e.1 = id) = true) :
    countDocId (vstore_upsert vs id d m) id = countDocId vs id := by
  unfold vstore_upsert
  rw [h]
  simp only [if_true]
  exact countDocId_map_subst vs id d m

/-- C1: re-ingesting the same text (with the extractor's deterministic outcome
for it) is a no-op at the storage layer — the content-derived document id is
the same pure function of the text on both calls, the graph node and edge
counts after the second ingestion equal those after the first, and the vector
document count stays at one because the second store of the same id is an
upsert, not a duplicate insert. -/
theorem ingest_text_twice_storage_noop (md5hex : String → String)
    (extraction : ExtractionResult) (text : String) (meta : Props) (st : Stores) :
    (ingest_text envOk md5hex extraction text meta
        (ingest_text envOk md5hex extraction text meta st).2).2.graph.nodes.length
      = (ingest_text envOk md5hex extraction text meta st).2.graph.nodes.length
    ∧ (ingest_text envOk md5hex extraction text meta
        (ingest_text envOk md5hex extraction text meta st).2).2.graph.edges.length
      = (ingest_text envOk md5hex extraction text meta st).2.graph.edges.length
    ∧ (ingest_text envOk md5hex extraction text meta
        (ingest_text envOk md5hex extraction text meta st).2).2.vstore.length
      = (ingest_text envOk md5hex extraction text meta st).2.vstore.length
    ∧ (countDocId st.vstore (_generate_doc_id md5hex text) = 0 →
        countDocId (ingest_text envOk md5hex extraction text meta st).2.vstore
            (_generate_doc_id md5hex text) = 1
        ∧ countDocId (ingest_text envOk md5hex extraction text meta
            (ingest_text envOk md5hex extraction text meta st).2).2.vstore
            (_generate_doc_id md5hex text) = 1) := by
  have h1 := ingest_text_envOk_state md5hex extraction text meta st
  have h2 := ingest_text_envOk_state md5hex extraction text meta
    (ingest_text envOk md5hex extraction text meta st).2
  have habs := foldl_tripleStep_absorbs extraction.triples st.graph
  have hlen := foldl_tripleStep_len extraction.triples
    (extraction.triples.foldl (fun acc t => tripleStepG t acc) st.graph) habs
  have hvc := vstore_upsert_contains st.vstore (_generate_doc_id md5hex text) text
    (setProps meta [("source", "ingestion")])
  refine ⟨?_, ?_, ?_, ?_⟩
  · rw [h2, h1]
    exact hlen.1
  · rw [h2, h1]
    exact hlen.2
  · rw [h2, h1]
    exact vstore_upsert_len_of_contains _ _ _ _ hvc
  · intro h0
    have habsent := (countDocId_zero_iff st.vstore (_generate_doc_id md5hex text)).mp h0
    constructor
    · rw [h1]
      exact countDocId_upsert_of_absent _ _ _ _ habsent
    · rw [h2, h1]
      dsimp only
      rw [countDocId_upsert_of_present _ _ _ _ hvc]
      exact countDocId_upsert_of_absent _ _ _ _ habsent

/-- Witness for C1 at a concrete text, extraction outcome and empty stores. -/
theorem ingest_text_twice_storage_noop_witness :
    countDocId emptyStores.vstore
        (_generate_doc_id (fun _ => "9e107d9d372bb6826bd81d3542a419d6") "t") = 0
    ∧ countDocId (ingest_text envOk (fun _ => "9e107d9d372bb6826bd81d3542a419d6")
        extractionOneTriple "t" [] emptyStores).2.vstore
        (_generate_doc_id (fun _ => "9e107d9d372bb6826bd81d3542a419d6") "t") = 1
    ∧ countDocId (ingest_text envOk (fun _ => "9e107d9d372bb6826bd81d3542a419d6")
        extractionOneTriple "t" []
        (ingest_text envOk (fun _ => "9e107d9d372bb6826bd81d3542a419d6")
          extractionOneTriple "t" [] emptyStores).2).2.vstore
        (_generate_doc_id (fun _ => "9e107d9d372bb6826bd81d3542a419d6") "t") = 1 :=
  ⟨by decide,
   ((ingest_text_twice_storage_noop (fun _ => "9e107d9d372bb6826bd81d3542a419d6")
      extractionOneTriple "t" [] emptyStores).2.2.2 (by decide)).1,
   ((ingest_text_twice_storage_noop (fun _ => "9e107d9d372bb6826bd81d3542a419d6")
      extractionOneTriple "t" [] emptyStores).2.2.2 (by decide)).2⟩

theorem dropWhile_head_not (p : Char → Bool) (l : List Char) (a : Char)
    (h : (l.dropWhile p).head? = some a) : p a = false := by
  have hd := List.head?_dropWhile_not p l
  rw [h] at hd
  exact hd

theorem dropWhile_idem (p : Char → Bool) (l : List Char) :
    (l.dropWhile p).dropWhile p = l.dropWhile p := by
  cases h : l.dropWhile p with
  | nil => rfl
  | cons a t =>
    have ha : p a = false := dropWhile_head_not p l a (by rw [h]; rfl)
    rw [List.dropWhile_cons, ha]
    simp

theorem head?_of_front {l₁ l₂ : List Char} (h : l₁ <+: l₂) (hne : l₁ ≠ []) :
    l₂.head? = l₁.head? := by
  obtain ⟨t, ht⟩ := h
  cases l₁ with
  | nil => exact absurd rfl hne
  | cons a l => rw [← ht]; rfl

theorem pyStrip_idem (l : List Char) : pyStrip (pyStrip l) = pyStrip l := by
  unfold pyStrip
  set a := l.dropWhile isPySpace with ha
  set b := ((l.dropWhile isPySpace).reverse.dropWhile isPySpace).reverse with hb
  have hrev : b.reverse = a.reverse.dropWhile isPySpace := by
    rw [hb, ha, List.reverse_reverse]
  have hkey2 : b.reverse.dropWhile isPySpace = b.reverse := by
    rw [hrev]
    exact dropWhile_idem isPySpace a.reverse
  have hkey1 : b.dropWhile isPySpace = b := by
    cases hbe : b with
    | nil => rfl
    | cons c t =>
      have hpre : b <+: a := by
        have hsuf : b.reverse <:+ a.reverse := by
          rw [hrev]
          exact List.dropWhile_suffix isPySpace
        exact List.reverse_suffix.mp hsuf
      have hha : a.head? = some c := by
        rw [head?_of_front hpre (by rw [hbe]; exact List.cons_ne_nil c t), hbe]
        rfl
      have hc : isPySpace c = false := dropWhile_head_not isPySpace l c hha
      rw [List.dropWhile_cons, hc]
      simp
  rw [hkey1, hkey2, List.reverse_reverse]

theorem toNat_ofNat_valid (n : Nat) (h : n.isValidChar) : (Char.ofNat n).toNat = n := by
  unfold Char.ofNat
  rw [dif_pos h]
  rfl

theorem toLower_toLower (c : Char) : c.toLower.toLower = c.toLower := by
  simp only [Char.toLower]
  by_cases h : c.toNat ≥ 65 ∧ c.toNat ≤ 90
  · rw [if_pos h]
    have hv : (c.toNat + 32).isValidChar := Or.inl (by omega)
    have ht : (Char.ofNat (c.toNat + 32)).toNat = c.toNat + 32 := toNat_ofNat_valid _ hv
    rw [ht, if_neg (by omega)]
  · rw [if_neg h, if_neg h]

theorem map_toLower_fixed (l : List Char) (h : ∀ c ∈ l, c.toLower = c) :
    l.map Char.toLower = l := by
  induction l with
  | nil => rfl
  | cons a t ih =>
    rw [List.map_cons, h a (List.mem_cons_self a t),
      ih (fun c hc => h c (List.mem_cons_of_mem a hc))]

theorem collapseWS_chars : ∀ (l : List Char), ∀ c ∈ collapseWS l, c = ' ' ∨ c ∈ l
  | [] => by simp [collapseWS]
  | [a] => by
    by_cases h : isPySpace a <;> simp [collapseWS, h]
  | a :: b :: rest => by
    intro c hc
    by_cases h : isPySpace a && isPySpace b
    · rw [collapseWS, if_pos h] at hc
      rcases collapseWS_chars (b :: rest) c hc with h1 | h1
      · exact Or.inl h1
      · exact Or.inr (List.mem_cons_of_mem a h1)
    · rw [collapseWS, if_neg h] at hc
      rcases List.mem_cons.mp hc with h1 | h1
      · by_cases ha : isPySpace a
        · rw [if_pos ha] at h1
          exact Or.inl h1
        · rw [if_neg ha] at h1
          exact Or.inr (h1 ▸ List.mem_cons_self a (b :: rest))
      · rcases collapseWS_chars (b :: rest) c h1 with h2 | h2
        · exact Or.inl h2
        · exact Or.inr (List.mem_cons_of_mem a h2)

theorem collapseWS_head : ∀ (d : Char) (rest : List Char),
    (collapseWS (d :: rest)).head? = some (if isPySpace d then ' ' else d)
  | d, [] => by by_cases h : isPySpace d <;> simp [collapseWS, h]
  | d, e :: tail => by
    by_cases h1 : isPySpace d
    · by_cases h2 : isPySpace e
      · have ih := collapseWS_head e tail
        rw [collapseWS, if_pos (by simp [h1, h2]), ih]
        simp [h1, h2]
      · rw [collapseWS, if_neg (by simp [h2])]
        rfl
    · rw [collapseWS, if_neg (by simp [h1])]
      rfl

theorem collapseWS_wsnormal : ∀ (l : List Char), WSNormal (collapseWS l)
  | [] => ⟨by simp [collapseWS], by simp [collapseWS]⟩
  | [a] => by
    by_cases h : isPySpace a <;>
      exact ⟨by simp [collapseWS, h], by simp [collapseWS, h]⟩
  | a :: b :: rest => by
    have ih := collapseWS_wsnormal (b :: rest)
    by_cases h : isPySpace a && isPySpace b
    · rw [collapseWS, if_pos h]
      exact ih
    · rw [collapseWS, if_neg h]
      constructor
      · intro c hc hw
        rcases List.mem_cons.mp hc with h1 | h1
        · by_cases ha : isPySpace a
          · rw [if_pos ha] at h1
            exact h1
          · rw [if_neg ha] at h1
            rw [h1] at hw
            rw [hw] at ha
            exact absurd rfl ha
        · exact ih.1 c h1 hw
      · rw [List.chain'_cons']
        refine ⟨?_, ih.2⟩
        intro x hx
        rw [collapseWS_head b rest] at hx
        have hx2 : x = if isPySpace b then ' ' else b := by
          injection hx with hx2
          exact hx2.symm
        by_cases ha : isPySpace a
        · have hb : isPySpace b = false := by
            cases hbv : isPySpace b
            · rfl
            · rw [ha, hbv] at h
              exact absurd rfl h
          right
          rw [hx2, if_neg (by simp [hb])]
          exact hb
        · left
          rw [if_neg ha]
          cases hav : isPySpace a
          · rfl
          · exact absurd hav ha

theorem wsnormal_of_middle {l₁ l : List Char} (h : WSNormal l) (hi : l₁ <:+: l) :
    WSNormal l₁ :=
  ⟨fun c hc hw => h.1 c (hi.subset hc) hw, List.Chain'.infix h.2 hi⟩

theorem chain'_tail_pair {R : Char → Char → Prop} {a b : Char} {rest : List Char}
    (h : List.Chain' R (a :: b :: rest)) : R a b ∧ List.Chain' R (b :: rest) :=
  List.chain'_cons.mp h

theorem collapseWS_of_wsnormal : ∀ (l : List Char), WSNormal l → collapseWS l = l
  | [], _ => rfl
  | [a], h => by
    by_cases ha : isPySpace a
    · have := h.1 a (by simp) ha
      simp [collapseWS, ha, this]
    · simp [collapseWS, ha]
  | a :: b :: rest, h => by
    have hpair := chain'_tail_pair h.2
    have hr : WSNormal (b :: rest) :=
      ⟨fun c hc hw => h.1 c (List.mem_cons_of_mem a hc) hw, hpair.2⟩
    have ih := collapseWS_of_wsnormal (b :: rest) hr
    have hcond : (isPySpace a && isPySpace b) = false := by
      rcases hpair.1 with hx | hx
      · simp [hx]
      · simp [hx]
    rw [collapseWS, if_neg (by rw [hcond]; exact Bool.false_ne_true), ih]
    by_cases ha : isPySpace a
    · rw [if_pos ha, h.1 a (List.mem_cons_self a (b :: rest)) ha]
    · rw [if_neg ha]

theorem dropDotRev_suffix (allowDot : Bool) (r : List Char) :
    dropDotRev allowDot r <:+ r := by
  cases r with
  | nil => exact List.suffix_refl _
  | cons c t =>
    show (if allowDot && c = '.' then t else c :: t) <:+ c :: t
    by_cases h : allowDot && c = '.'
    · rw [if_pos h]
      exact List.suffix_cons c t
    · rw [if_neg h]

theorem matchWordRev_suffix : ∀ (w r rest : List Char),
    matchWordRev w r = some rest → rest <:+ r
  | [], r, rest, h => by
    rw [matchWordRev] at h
    injection h with h
    rw [← h]
  | _ :: _, [], _, h => by cases h
  | w :: ws, c :: cs, rest, h => by
    by_cases hc : c.toLower = w
    · rw [matchWordRev, if_pos hc] at h
      exact (matchWordRev_suffix ws cs rest h).trans (List.suffix_cons c cs)
    · rw [matchWordRev, if_neg hc] at h
      cases h

theorem stripEnd_front (word : String) (allowDot : Bool) (cs : List Char) :
    stripEnd word allowDot cs <+: cs := by
  unfold stripEnd
  cases hm : matchWordRev word.data.reverse (dropDotRev allowDot cs.reverse) with
  | none => exact List.prefix_refl cs
  | some rest =>
    cases rest with
    | nil => exact List.prefix_refl cs
    | cons c t =>
      show (if isPySpace c then ((c :: t).dropWhile isPySpace).reverse else cs) <+: cs
      by_cases hws : isPySpace c
      · rw [if_pos hws]
        have h1 : (c :: t) <:+ cs.reverse :=
          (matchWordRev_suffix _ _ _ hm).trans (dropDotRev_suffix allowDot cs.reverse)
        have h3 : (c :: t).dropWhile isPySpace <:+ cs.reverse :=
          (List.dropWhile_suffix isPySpace).trans h1
        have h4 := h3.reverse
        rw [List.reverse_reverse] at h4
        exact h4
      · rw [if_neg hws]

theorem foldl_stripEnd_front : ∀ (ps : List (String × Bool)) (l : List Char),
    ps.foldl (fun acc p => stripEnd p.1 p.2 acc) l <+: l
  | [], l => List.prefix_refl l
  | p :: ps, l =>
    (foldl_stripEnd_front ps (stripEnd p.1 p.2 l)).trans (stripEnd_front p.1 p.2 l)

theorem stripSuffixes_front (l : List Char) : stripSuffixes l <+: l :=
  foldl_stripEnd_front COMPANY_SUFFIXES l

theorem pyStrip_middle (l : List Char) : pyStrip l <:+: l := by
  unfold pyStrip
  have h1 : l.dropWhile isPySpace <:+ l := List.dropWhile_suffix isPySpace
  have h2 : (l.dropWhile isPySpace).reverse.dropWhile isPySpace
      <:+ (l.dropWhile isPySpace).reverse := List.dropWhile_suffix isPySpace
  have h3 := h2.reverse
  rw [List.reverse_reverse] at h3
  exact List.IsInfix.trans (List.IsPrefix.isInfix h3) (List.IsSuffix.isInfix h1)

theorem normalize_entity_name_of_ne (name : String) (h : name ≠ "") :
    normalize_entity_name name
      = String.mk (pyStrip (stripSuffixes (collapseWS
          ((pyStrip name.data).map Char.toLower)))) := by
  unfold normalize_entity_name
  rw [if_neg h]

/-- C3 counterexample: normalization is not idempotent — stripping the `co`
suffix from `"x inc co"` exposes the `inc` suffix, whose pattern was already
applied earlier in the single pass, so a second normalization strips further. -/
theorem normalize_not_idempotent_compound_suffix :
    normalize_entity_name (normalize_entity_name "x inc co")
      ≠ normalize_entity_name "x inc co" := by
  have h1 : normalize_entity_name "x inc co" = "x inc" := by decide
  rw [h1]
  decide

/-- C3 (amended): entity-name normalization is idempotent on every string whose
normalized form the suffix-stripping pass leaves unchanged (in particular
whenever no organizational suffix survives the first pass); in general a second
application can only strip further suffixes exposed by the first, as in
`"x inc co" → "x inc" → "x"`. -/
theorem normalize_idempotent_of_suffix_fixpoint (s : String)
    (h : stripSuffixes (normalize_entity_name s).data = (normalize_entity_name s).data) :
    normalize_entity_name (normalize_entity_name s) = normalize_entity_name s := by
  by_cases hs : normalize_entity_name s = ""
  · rw [hs]
    rfl
  · have hs0 : s ≠ "" := by
      intro h0
      rw [h0] at hs
      exact hs rfl
    have hl : (normalize_entity_name s).data
        = pyStrip (stripSuffixes (collapseWS ((pyStrip s.data).map Char.toLower))) := by
      rw [normalize_entity_name_of_ne s hs0]
    have hws : WSNormal (normalize_entity_name s).data := by
      rw [hl]
      exact wsnormal_of_middle
        (wsnormal_of_middle (collapseWS_wsnormal _)
          (List.IsPrefix.isInfix (stripSuffixes_front _)))
        (pyStrip_middle _)
    have hlow : ∀ c ∈ (normalize_entity_name s).data, c.toLower = c := by
      rw [hl]
      intro c hc
      have hc2 : c ∈ stripSuffixes (collapseWS ((pyStrip s.data).map Char.toLower)) :=
        (pyStrip_middle _).subset hc
      have hc3 : c ∈ collapseWS ((pyStrip s.data).map Char.toLower) :=
        (stripSuffixes_front _).subset hc2
      rcases collapseWS_chars _ c hc3 with hsp | hmem
      · rw [hsp]
        rfl
      · rcases List.mem_map.mp hmem with ⟨x, _, hx⟩
        rw [← hx]
        exact toLower_toLower x
    have hstrip : pyStrip (normalize_entity_name s).data = (normalize_entity_name s).data := by
      rw [hl]
      exact pyStrip_idem _
    have hmap : ((normalize_entity_name s).data).map Char.toLower
        = (normalize_entity_name s).data := map_toLower_fixed _ hlow
    have hcol : collapseWS (normalize_entity_name s).data = (normalize_entity_name s).data :=
      collapseWS_of_wsnormal _ hws
    rw [normalize_entity_name_of_ne _ hs, hstrip, hmap, hcol, h, hstrip]

/-- Witness for C3 (amended) at a concrete suffix-free normalized form. -/
theorem normalize_idempotent_of_suffix_fixpoint_witness :
    stripSuffixes (normalize_entity_name "Apple Inc.").data
        = (normalize_entity_name "Apple Inc.").data
    ∧ normalize_entity_name (normalize_entity_name "Apple Inc.")
        = normalize_entity_name "Apple Inc." :=
  ⟨by decide, normalize_idempotent_of_suffix_fixpoint "Apple Inc." (by decide)⟩
